import Mathlib

/-!
Verification of `getusers.py`: a shallow embedding of the account
classification and correlation pipeline (threshold loader, privilege
resolver, login-history index, account classifier, report builder, table
renderer) together with theorems about its behaviour.

Strings are embedded as `List Char` so that every operation is a plain
structural recursion: `pyStrip` models Python `str.strip()`, `splitOnChar`
models `str.split(c)` (keeping empty fields), `tokensWS` models the
argument-free `str.split()` (whitespace runs, empties dropped), `pyIn`
models the substring test `a in b`, and `pyInt` models `int(s)` returning
`none` where `int` would raise `ValueError`.  Code paths that can raise an
uncaught exception (an `IndexError` from a subscript, a `ValueError` from
`int`) are embedded in `Option` / `Except`, with `none` / `error` standing
for the raised exception.
-/

namespace GetUsers

/-- Strings of the embedded program. -/
abbrev Str := List Char

/-- Shorthand turning a Lean string literal into an embedded string. -/
def lit (s : String) : Str := s.toList

/-- Python `str.strip()`: drop whitespace from both ends. -/
def pyStrip (s : Str) : Str :=
  ((s.dropWhile Char.isWhitespace).reverse.dropWhile Char.isWhitespace).reverse

/-- Split on every character satisfying `p`, keeping empty fields, as
Python `str.split(sep)` does; the result is always non-empty. -/
def splitOnPred (p : Char → Bool) : Str → List Str
  | [] => [[]]
  | a :: rest =>
    if p a then [] :: splitOnPred p rest
    else
      match splitOnPred p rest with
      | [] => [[a]]
      | r :: rs => (a :: r) :: rs

/-- Python `str.split(c)` for a one-character separator. -/
def splitOnChar (c : Char) (s : Str) : List Str :=
  splitOnPred (fun a => a == c) s

/-- Python argument-free `str.split()`: split on whitespace runs and drop
the empty fields. -/
def tokensWS (s : Str) : List Str :=
  (splitOnPred Char.isWhitespace s).filter (fun t => decide (t ≠ []))

/-- Python substring containment `needle in hay`. -/
def pyIn (needle hay : Str) : Bool :=
  hay.tails.any (fun t => needle.isPrefixOf t)

/-- Value of a run of decimal digits; `none` when a non-digit appears. -/
def digitsValAux (acc : Nat) : Str → Option Nat
  | [] => some acc
  | c :: r =>
    if c.isDigit then digitsValAux (acc * 10 + (c.toNat - '0'.toNat)) r
    else none

/-- Value of a non-empty all-digit string, `none` otherwise. -/
def digitsVal : Str → Option Nat
  | [] => none
  | c :: r => digitsValAux 0 (c :: r)

/-- Python `int(s)`: surrounding whitespace, an optional sign, then
decimal digits; `none` models the `ValueError` raised on anything else. -/
def pyInt (s : Str) : Option Int :=
  match pyStrip s with
  | '-' :: r => (digitsVal r).map (fun n => -(n : Int))
  | '+' :: r => (digitsVal r).map (fun n => (n : Int))
  | t => (digitsVal t).map (fun n => (n : Int))

/-- One `pwd.struct_passwd` record: `x[0]` name, `x[1]` password, `x[2]`
uid, `x[3]` gid, `x[4]` gecos, `x[5]` home directory, `x[6]` shell. -/
structure Passwd where
  pw_name : Str
  pw_passwd : Str
  pw_uid : Int
  pw_gid : Int
  pw_gecos : Str
  pw_dir : Str
  pw_shell : Str
deriving DecidableEq

/-- A display value of a report row: either a Python `int` or a string,
matching the heterogeneous lists the script builds. -/
inductive Field where
  | i : Int → Field
  | s : Str → Field
deriving DecidableEq

/-- A report row: one heterogeneous list of display values. -/
abbrev Row := List Field

/-- The runtime data of the `Users` class: the four threshold class
attributes together with the loaded file contents. -/
structure UsersState where
  UID_MIN : Int
  UID_MAX : Int
  SYS_UID_MIN : Int
  SYS_UID_MAX : Int
  SUDO_CONTENT : List Str
  GROUP_CONTENT : List Str
  USERS : List Passwd
  LOGINS : List (List Str)
deriving DecidableEq

/-- The `Users` class defaults: `UID_MIN = 1000`, `UID_MAX = 60000`,
`SYS_UID_MIN = 0`, `SYS_UID_MAX = 999`, no loaded content. -/
def users_defaults : UsersState :=
  UsersState.mk 1000 60000 0 999 [] [] [] []

/-- The scan of the group lines inside `is_sudo` (lines 321-335 of the
source).  `line.strip().split(':')` is never empty, so the guarded
`fields[0]` of the source can never raise and the `except IndexError:
continue` branch (modelled by the `[]` case) is dead; `fields[3]` on a
privileged line with fewer than 4 fields raises an uncaught `IndexError`,
modelled by `none`. -/
def group_scan (user : Str) : List Str → Option Bool
  | [] => some false
  | line :: rest =>
    match splitOnChar ':' (pyStrip line) with
    | [] => group_scan user rest
    | f0 :: fs =>
      if f0 = lit "wheel" ∨ f0 = lit "admin" ∨ f0 = lit "sudo" then
        match (f0 :: fs).get? 3 with
        | none => none
        | some f3 =>
          if (splitOnChar ',' f3).any (fun groupuser => groupuser == user)
          then some true
          else group_scan user rest
      else group_scan user rest

/-- `is_sudo(user)` (lines 306-337): a grant-list line containing
`user + " "` as a substring, else membership of the fourth field of a
`wheel` / `admin` / `sudo` group line.  `none` models an uncaught
`IndexError`. -/
def is_sudo (user : Str) (st : UsersState) : Option Bool :=
  if st.SUDO_CONTENT.any (fun line => pyIn (user ++ [' ']) line)
  then some true
  else group_scan user st.GROUP_CONTENT

/-- `get_last_login(user)` (lines 364-380): scan the stored login rows;
on the first row whose `x[0]` equals `user` return
`x[3] + ' ' + x[4] + ' ' + x[5] + ' ' + x[6]`; `none` models the uncaught
`IndexError` a too-short row raises. -/
def get_last_login (user : Str) : List (List Str) → Option Str
  | [] => some (lit "None found")
  | x :: rest =>
    match x.get? 0 with
    | none => none
    | some t =>
      if t = user then
        match x.get? 3, x.get? 4, x.get? 5, x.get? 6 with
        | some a, some b, some c, some d =>
          some (a ++ [' '] ++ b ++ [' '] ++ c ++ [' '] ++ d)
        | _, _, _, _ => none
      else get_last_login user rest

/-- The storage of login-history rows in `init_variables` (lines
194-203): each output line is stripped and whitespace-split, and the row
is kept exactly when it is non-empty. -/
def store_logins (outputLines : List Str) : List (List Str) :=
  (outputLines.map (fun line => tokensWS (pyStrip line))).filter
    (fun row => decide (0 < row.length))

/-- The row built for one account in the standard report (as in lines
209-216): `[x[2], x[0], x[5], x[6], sudo, last_login]`, with
`sudo = "yes"/"no"` from `is_sudo` and `last_login` from
`get_last_login`.  `none` models an uncaught exception of either call. -/
def mk_standard_row (st : UsersState) (x : Passwd) : Option Row :=
  match is_sudo x.pw_name st with
  | none => none
  | some b =>
    match get_last_login x.pw_name st.LOGINS with
    | none => none
    | some last_login =>
      some [Field.i x.pw_uid, Field.s x.pw_name, Field.s x.pw_dir,
        Field.s x.pw_shell, Field.s (if b then lit "yes" else lit "no"),
        Field.s last_login]

/-- The comment-field truncation of the full report builders (lines
264-268): keep 16 characters and append `".."` when the length exceeds
18, then replace an empty result by `"None"`. -/
def trunc_gecos (gecos : Str) : Str :=
  let g := if 18 < gecos.length then gecos.take 16 ++ lit ".." else gecos
  if g = [] then lit "None" else g

/-- The row built for one account in the full report (as in lines
257-270): `[x[2], x[0], x[3], gecos, x[5], x[6], sudo, last_login]` with
the gecos truncation applied. -/
def mk_full_row (st : UsersState) (x : Passwd) : Option Row :=
  match is_sudo x.pw_name st with
  | none => none
  | some b =>
    match get_last_login x.pw_name st.LOGINS with
    | none => none
    | some last_login =>
      some [Field.i x.pw_uid, Field.s x.pw_name, Field.i x.pw_gid,
        Field.s (trunc_gecos x.pw_gecos), Field.s x.pw_dir,
        Field.s x.pw_shell, Field.s (if b then lit "yes" else lit "no"),
        Field.s last_login]

/-- The loop of `get_system_users` over a list of accounts: keep the rows
of the accounts with `x[2] <= SYS_UID_MAX`. -/
def system_rows (st : UsersState) : List Passwd → Option (List Row)
  | [] => some []
  | x :: rest =>
    if x.pw_uid ≤ st.SYS_UID_MAX then
      match mk_standard_row st x with
      | none => none
      | some row =>
        match system_rows st rest with
        | none => none
        | some t => some (row :: t)
    else system_rows st rest

/-- The loop of `get_users` over a list of accounts: keep the rows of the
accounts with `UID_MIN <= x[2] <= UID_MAX`. -/
def users_rows (st : UsersState) : List Passwd → Option (List Row)
  | [] => some []
  | x :: rest =>
    if st.UID_MIN ≤ x.pw_uid ∧ x.pw_uid ≤ st.UID_MAX then
      match mk_standard_row st x with
      | none => none
      | some row =>
        match users_rows st rest with
        | none => none
        | some t => some (row :: t)
    else users_rows st rest

/-- The loop of `get_all_users`: keep every account's row. -/
def all_rows (st : UsersState) : List Passwd → Option (List Row)
  | [] => some []
  | x :: rest =>
    match mk_standard_row st x with
    | none => none
    | some row =>
      match all_rows st rest with
      | none => none
      | some t => some (row :: t)

/-- The loop of `get_system_full`. -/
def system_full_rows (st : UsersState) : List Passwd → Option (List Row)
  | [] => some []
  | x :: rest =>
    if x.pw_uid ≤ st.SYS_UID_MAX then
      match mk_full_row st x with
      | none => none
      | some row =>
        match system_full_rows st rest with
        | none => none
        | some t => some (row :: t)
    else system_full_rows st rest

/-- The loop of `get_users_full`. -/
def users_full_rows (st : UsersState) : List Passwd → Option (List Row)
  | [] => some []
  | x :: rest =>
    if st.UID_MIN ≤ x.pw_uid ∧ x.pw_uid ≤ st.UID_MAX then
      match mk_full_row st x with
      | none => none
      | some row =>
        match users_full_rows st rest with
        | none => none
        | some t => some (row :: t)
    else users_full_rows st rest

/-- The loop of `get_all_users_full`. -/
def all_full_rows (st : UsersState) : List Passwd → Option (List Row)
  | [] => some []
  | x :: rest =>
    match mk_full_row st x with
    | none => none
    | some row =>
      match all_full_rows st rest with
      | none => none
      | some t => some (row :: t)

/-- `get_system_users()` (lines 206-217). -/
def get_system_users (st : UsersState) : Option (List Row) :=
  system_rows st st.USERS

/-- `get_users()` (lines 240-251). -/
def get_users (st : UsersState) : Option (List Row) :=
  users_rows st st.USERS

/-- `get_all_users()` (lines 274-284). -/
def get_all_users (st : UsersState) : Option (List Row) :=
  all_rows st st.USERS

/-- `get_system_full()` (lines 220-237). -/
def get_system_full (st : UsersState) : Option (List Row) :=
  system_full_rows st st.USERS

/-- `get_users_full()` (lines 254-271). -/
def get_users_full (st : UsersState) : Option (List Row) :=
  users_full_rows st st.USERS

/-- `get_all_users_full()` (lines 287-303). -/
def get_all_users_full (st : UsersState) : Option (List Row) :=
  all_full_rows st st.USERS

/-- The four recognized keys of the definitions file. -/
inductive DefsKey where
  | uidMin
  | uidMax
  | sysUidMin
  | sysUidMax
deriving DecidableEq

/-- The key token each recognized definitions-file key matches. -/
def DefsKey.keyStr : DefsKey → Str
  | .uidMin => lit "UID_MIN"
  | .uidMax => lit "UID_MAX"
  | .sysUidMin => lit "SYS_UID_MIN"
  | .sysUidMax => lit "SYS_UID_MAX"

/-- The threshold attribute each recognized key assigns. -/
def DefsKey.read : DefsKey → UsersState → Int
  | .uidMin, st => st.UID_MIN
  | .uidMax, st => st.UID_MAX
  | .sysUidMin, st => st.SYS_UID_MIN
  | .sysUidMax, st => st.SYS_UID_MAX

/-- Assignment of one threshold attribute, e.g. `Users.UID_MIN = v`. -/
def set_threshold (k : DefsKey) (st : UsersState) (v : Int) : UsersState :=
  match k with
  | .uidMin => UsersState.mk v st.UID_MAX st.SYS_UID_MIN st.SYS_UID_MAX
      st.SUDO_CONTENT st.GROUP_CONTENT st.USERS st.LOGINS
  | .uidMax => UsersState.mk st.UID_MIN v st.SYS_UID_MIN st.SYS_UID_MAX
      st.SUDO_CONTENT st.GROUP_CONTENT st.USERS st.LOGINS
  | .sysUidMin => UsersState.mk st.UID_MIN st.UID_MAX v st.SYS_UID_MAX
      st.SUDO_CONTENT st.GROUP_CONTENT st.USERS st.LOGINS
  | .sysUidMax => UsersState.mk st.UID_MIN st.UID_MAX st.SYS_UID_MIN v
      st.SUDO_CONTENT st.GROUP_CONTENT st.USERS st.LOGINS

/-- The definitions-file loop of `init_variables` (lines 159-174): for
each line, `fields = l.strip().split()`; a recognized first token assigns
`int(fields[1])` to its attribute, any other first token is skipped.
`none` models an uncaught `IndexError` (no token, no value token) or
`ValueError` (non-integer value). -/
def process_defs (st : UsersState) : List Str → Option UsersState
  | [] => some st
  | l :: rest =>
    match tokensWS (pyStrip l) with
    | [] => none
    | f0 :: fs =>
      if f0 = lit "UID_MIN" then
        match fs.head? with
        | none => none
        | some t =>
          match pyInt t with
          | none => none
          | some v => process_defs (set_threshold DefsKey.uidMin st v) rest
      else if f0 = lit "UID_MAX" then
        match fs.head? with
        | none => none
        | some t =>
          match pyInt t with
          | none => none
          | some v => process_defs (set_threshold DefsKey.uidMax st v) rest
      else if f0 = lit "SYS_UID_MIN" then
        match fs.head? with
        | none => none
        | some t =>
          match pyInt t with
          | none => none
          | some v => process_defs (set_threshold DefsKey.sysUidMin st v) rest
      else if f0 = lit "SYS_UID_MAX" then
        match fs.head? with
        | none => none
        | some t =>
          match pyInt t with
          | none => none
          | some v => process_defs (set_threshold DefsKey.sysUidMax st v) rest
      else process_defs st rest

/-- The lines of a definitions source whose first token is `K`. -/
def key_lines (K : Str) (lines : List Str) : List Str :=
  lines.filter (fun l => decide ((tokensWS (pyStrip l)).head? = some K))

/-- Decimal digits of `n`, accumulator style; `fuel` bounds the
recursion and any `fuel > n` is enough. -/
def nat_digits_aux : Nat → Nat → Str → Str
  | 0, _, acc => acc
  | fuel + 1, n, acc =>
    let d := Char.ofNat ('0'.toNat + n % 10)
    if n < 10 then d :: acc else nat_digits_aux fuel (n / 10) (d :: acc)

/-- Python `str(n)` for an integer. -/
def int_str (n : Int) : Str :=
  if n < 0 then '-' :: nat_digits_aux (n.natAbs + 1) n.natAbs []
  else nat_digits_aux (n.natAbs + 1) n.natAbs []

/-- Python `str(word)` for a display value. -/
def field_str : Field → Str
  | .i n => int_str n
  | .s t => t

/-- `get_max_field_length(table)` (lines 340-361): the longest
stringified field, descending one level into rows; `Sum.inl` is a bare
value, `Sum.inr` a row (the `isinstance` branch of the source). -/
def get_max_field_length (table : List (Field ⊕ List Field)) : Nat :=
  table.foldl
    (fun m x =>
      match x with
      | Sum.inl w => if (field_str w).length > m then (field_str w).length else m
      | Sum.inr r =>
        r.foldl
          (fun m2 w =>
            if (field_str w).length > m2 then (field_str w).length else m2)
          m)
    0

/-- Python `str.ljust(w)`: pad on the right with spaces up to width `w`. -/
def ljust (s : Str) (w : Nat) : Str :=
  s ++ List.replicate (w - s.length) ' '

/-- The column width `print_table` computes (lines 413-419): the larger
of header and body maxima, each increased by 2. -/
def column_width (headers : List Field) (table : List (List Field)) : Nat :=
  let header_max := get_max_field_length (headers.map Sum.inl) + 2
  let table_max := get_max_field_length (table.map Sum.inr) + 2
  if header_max > table_max then header_max else table_max

/-- `print_table(headers, table)` (lines 403-425) as the list of printed
lines (the ANSI colour escapes around each line are display dressing and
are not modelled): every field of every line is left-justified to the one
shared column width. -/
def print_table (headers : List Field) (table : List (List Field)) : List Str :=
  let w := column_width headers table
  (headers.map (fun word => ljust (field_str word) w)).flatten ::
    table.map (fun row => (row.map (fun word => ljust (field_str word) w)).flatten)

/-- `Config.HEADER_STANDARD`. -/
def HEADER_STANDARD : List Field :=
  [Field.s (lit "ID"), Field.s (lit "User"), Field.s (lit "Home"),
    Field.s (lit "Shell"), Field.s (lit "Sudo"), Field.s (lit "Last Login")]

/-- `Config.HEADER_FULL`. -/
def HEADER_FULL : List Field :=
  [Field.s (lit "ID"), Field.s (lit "User"), Field.s (lit "Group ID"),
    Field.s (lit "GECOS"), Field.s (lit "Home"), Field.s (lit "Shell"),
    Field.s (lit "Sudo"), Field.s (lit "Last Login")]

/-- The parsed command-line flags. -/
structure Args where
  show_version : Bool
  show_system_users : Bool
  show_users : Bool
  show_all_users : Bool
  show_full_output : Bool
deriving DecidableEq

/-- The external world `init_variables` reads: whether each file opens
(`none` models an `IOError`), the `pwd.getpwall()` table, and the decoded
output lines of the `last` command. -/
structure Env where
  passwd_ok : Bool
  group_content : Option (List Str)
  defs_content : Option (List Str)
  sudo_content : Option (List Str)
  pw_all : List Passwd
  last_output : List Str
deriving DecidableEq

/-- `init_variables()` (lines 136-203), in source order: check `passwd`
opens, read the group file, read the definitions file (its lines stripped
and the blank ones dropped, lines 154-155) and run the threshold loop,
read the sudoers file, take `pwd.getpwall()`, store the login rows.
`error` carries the `sys.exit` message of an unopenable file, or
`"ValueError"` for the uncaught exception of a malformed definitions
value. -/
def init_variables (env : Env) : Except Str UsersState :=
  if env.passwd_ok = false then Except.error (lit "Unable to open /etc/passwd")
  else
    match env.group_content with
    | none => Except.error (lit "Unable to open /etc/group")
    | some group =>
      match env.defs_content with
      | none => Except.error (lit "Unable to open /etc/login.defs")
      | some defs =>
        match process_defs users_defaults
            ((defs.map pyStrip).filter (fun l => decide (l ≠ []))) with
        | none => Except.error (lit "ValueError")
        | some st =>
          match env.sudo_content with
          | none => Except.error (lit "Unable to open /etc/sudoers")
          | some sudoers =>
            Except.ok (UsersState.mk st.UID_MIN st.UID_MAX st.SYS_UID_MIN
              st.SYS_UID_MAX sudoers group env.pw_all
              (store_logins env.last_output))

/-- What one run prints after the banner: the version line, or one
rendered report. -/
inductive Output where
  | versionOut : Output
  | report : List Field → List Str → Output
deriving DecidableEq

/-- Rendering of one report variant: headers and table through
`print_table`. -/
def render (headers : List Field) (t : List Row) : Output :=
  Output.report headers (print_table headers t)

/-- `main()` (lines 471-507): `init_variables` runs first, then the flags
are consulted in order `version`, `system`, `users`, `all`, default
`users`.  A `none` from a report builder is an uncaught `IndexError`,
carried as an `error`. -/
def main_run (env : Env) (args : Args) : Except Str Output :=
  match init_variables env with
  | Except.error e => Except.error e
  | Except.ok st =>
    if args.show_version then Except.ok Output.versionOut
    else if args.show_system_users then
      match (if args.show_full_output then get_system_full st
        else get_system_users st) with
      | none => Except.error (lit "IndexError")
      | some t =>
        Except.ok (render
          (if args.show_full_output then HEADER_FULL else HEADER_STANDARD) t)
    else if args.show_users then
      match (if args.show_full_output then get_users_full st
        else get_users st) with
      | none => Except.error (lit "IndexError")
      | some t =>
        Except.ok (render
          (if args.show_full_output then HEADER_FULL else HEADER_STANDARD) t)
    else if args.show_all_users then
      match (if args.show_full_output then get_all_users_full st
        else get_all_users st) with
      | none => Except.error (lit "IndexError")
      | some t =>
        Except.ok (render
          (if args.show_full_output then HEADER_FULL else HEADER_STANDARD) t)
    else
      match (if args.show_full_output then get_users_full st
        else get_users st) with
      | none => Except.error (lit "IndexError")
      | some t =>
        Except.ok (render
          (if args.show_full_output then HEADER_FULL else HEADER_STANDARD) t)

/-- Sequencing of an option-valued function over a list, used to state
that the classifier loops are exactly `filter` followed by row building. -/
def optMap (f : α → Option β) : List α → Option (List β)
  | [] => some []
  | a :: l =>
    match f a with
    | none => none
    | some b =>
      match optMap f l with
      | none => none
      | some t => some (b :: t)

/-- The display string `get_last_login` reconstructs from a stored row:
the tokens at positions 3, 4, 5, 6 joined by single spaces. -/
def fmt_login (l : List Str) : Str :=
  ((l.get? 3).getD []) ++ [' '] ++ ((l.get? 4).getD []) ++ [' '] ++
    ((l.get? 5).getD []) ++ [' '] ++ ((l.get? 6).getD [])

/-- A state whose group file holds the single malformed privileged line
`"wheel:x:10"` (three colon-delimited fields). -/
def short_wheel_state : UsersState :=
  UsersState.mk 1000 60000 0 999 [] [lit "wheel:x:10"] [] []

/-- A state whose group file holds the single malformed unprivileged
line `"foo:x:10"` (three colon-delimited fields). -/
def short_foo_state : UsersState :=
  UsersState.mk 1000 60000 0 999 [] [lit "foo:x:10"] [] []

/-- A state with a grant line for `alice` and a wheel group for `bob`. -/
def sample_state : UsersState :=
  UsersState.mk 1000 60000 0 999 [lit "alice ALL=(ALL) ALL"]
    [lit "wheel:x:10:bob,carol"] [] []

/-- An account with uid 60001, between the regular range and nothing. -/
def u60001 : Passwd :=
  Passwd.mk (lit "ghost") (lit "x") 60001 60001 [] (lit "/home/ghost")
    (lit "/bin/sh")

/-- Default thresholds, empty privilege sources, and `u60001` as the only
account. -/
def gap_state : UsersState :=
  UsersState.mk 1000 60000 0 999 [] [] [u60001] []

/-- A concrete definitions source: one recognized key, one unrecognized
line, one more recognized key. -/
def defs_lines_w : List Str :=
  [lit "UID_MIN  2000", lit "# unrelated line", lit "SYS_UID_MAX 499"]

/-- An environment where the account database cannot be opened. -/
def env_bad : Env := Env.mk false none none none [] []

/-- An environment where every source opens and is empty. -/
def env_ok : Env := Env.mk true (some []) (some []) (some []) [] []

/-- Flags selecting the version-display mode. -/
def args_version : Args := Args.mk true false false false false

/-- The declarative side of the privilege claim: the line's first
colon-delimited field is exactly `"wheel"`, `"admin"` or `"sudo"`. -/
def privileged_group_line (line : Str) : Prop :=
  (splitOnChar ':' (pyStrip line)).head? = some (lit "wheel") ∨
  (splitOnChar ':' (pyStrip line)).head? = some (lit "admin") ∨
  (splitOnChar ':' (pyStrip line)).head? = some (lit "sudo")

/-- The declarative side of the privilege claim: a privileged group line
whose fourth colon-delimited field, split on commas, has `user` as an
exact element. -/
def group_grants (user line : Str) : Prop :=
  privileged_group_line line ∧
  ∃ f3, (splitOnChar ':' (pyStrip line)).get? 3 = some f3 ∧
    user ∈ splitOnChar ',' f3

/-!  Theorems.  Each claim of the specification is settled by exactly one
theorem below; helper lemmas carry the inductions they share. -/

lemma optMap_mem {α β : Type} {f : α → Option β} {l : List α} {l2 : List β}
    (h : optMap f l = some l2) {x : α} (hx : x ∈ l) :
    ∃ y, f x = some y ∧ y ∈ l2 := by
  induction l generalizing l2 with
  | nil => cases hx
  | cons a t ih =>
    cases hfa : f a with
    | none => simp [optMap, hfa] at h
    | some b =>
      cases hot : optMap f t with
      | none => simp [optMap, hfa, hot] at h
      | some t2 =>
        have hl2 : l2 = b :: t2 := by
          simp [optMap, hfa, hot] at h
          exact h.symm
        rcases List.mem_cons.mp hx with rfl | hx2
        · exact ⟨b, hfa, by rw [hl2]; exact List.mem_cons_self _ _⟩
        · obtain ⟨y, hy, hym⟩ := ih hot hx2
          exact ⟨y, hy, by rw [hl2]; exact List.mem_cons_of_mem _ hym⟩

lemma system_rows_eq (st : UsersState) (l : List Passwd) :
    system_rows st l = optMap (mk_standard_row st)
      (l.filter (fun x => decide (x.pw_uid ≤ st.SYS_UID_MAX))) := by
  induction l with
  | nil => rfl
  | cons x rest ih =>
    by_cases h : x.pw_uid ≤ st.SYS_UID_MAX
    · rw [List.filter_cons, if_pos (by simpa using h)]
      cases hfa : mk_standard_row st x with
      | none =>
        simp only [system_rows, optMap]
        rw [if_pos h, hfa]
      | some row =>
        cases hrest : system_rows st rest with
        | none =>
          have h2 := ih.symm.trans hrest
          simp only [system_rows, optMap]
          rw [if_pos h, hfa, hrest, h2]
        | some t =>
          have h2 := ih.symm.trans hrest
          simp only [system_rows, optMap]
          rw [if_pos h, hfa, hrest, h2]
    · rw [List.filter_cons, if_neg (by simpa using h)]
      simp only [system_rows, if_neg h, ih]

lemma users_rows_eq (st : UsersState) (l : List Passwd) :
    users_rows st l = optMap (mk_standard_row st)
      (l.filter (fun x => decide (st.UID_MIN ≤ x.pw_uid ∧ x.pw_uid ≤ st.UID_MAX))) := by
  induction l with
  | nil => rfl
  | cons x rest ih =>
    by_cases h : st.UID_MIN ≤ x.pw_uid ∧ x.pw_uid ≤ st.UID_MAX
    · rw [List.filter_cons, if_pos (by simpa using h)]
      cases hfa : mk_standard_row st x with
      | none =>
        simp only [users_rows, optMap]
        rw [if_pos h, hfa]
      | some row =>
        cases hrest : users_rows st rest with
        | none =>
          have h2 := ih.symm.trans hrest
          simp only [users_rows, optMap]
          rw [if_pos h, hfa, hrest, h2]
        | some t =>
          have h2 := ih.symm.trans hrest
          simp only [users_rows, optMap]
          rw [if_pos h, hfa, hrest, h2]
    · rw [List.filter_cons, if_neg (by simpa using h)]
      simp only [users_rows, if_neg h, ih]

lemma all_rows_eq (st : UsersState) (l : List Passwd) :
    all_rows st l = optMap (mk_standard_row st) l := by
  induction l with
  | nil => rfl
  | cons x rest ih =>
    cases hfa : mk_standard_row st x with
    | none =>
      simp only [all_rows, optMap]
      rw [hfa]
    | some row =>
      cases hrest : all_rows st rest with
      | none =>
        have h2 := ih.symm.trans hrest
        simp only [all_rows, optMap]
        rw [hfa, hrest, h2]
      | some t =>
        have h2 := ih.symm.trans hrest
        simp only [all_rows, optMap]
        rw [hfa, hrest, h2]

/-- C3: the system-mode filter keeps exactly the accounts with
`id <= SYS_UID_MAX` (no lower bound, so arbitrarily negative ids pass),
the regular-mode filter keeps exactly those with
`UID_MIN <= id <= UID_MAX`, the all-mode filter keeps every account, and
each output is the row image of the kept accounts in original database
order, with no account dropped or duplicated. -/
theorem classifier_filters (st : UsersState) :
    get_system_users st = optMap (mk_standard_row st)
      (st.USERS.filter (fun x => decide (x.pw_uid ≤ st.SYS_UID_MAX))) ∧
    get_users st = optMap (mk_standard_row st)
      (st.USERS.filter
        (fun x => decide (st.UID_MIN ≤ x.pw_uid ∧ x.pw_uid ≤ st.UID_MAX))) ∧
    get_all_users st = optMap (mk_standard_row st) st.USERS :=
  ⟨system_rows_eq st st.USERS, users_rows_eq st st.USERS, all_rows_eq st st.USERS⟩

/-- C2 (the code, at the claim's failing input): on a group line with
fewer than 4 colon-delimited fields whose first field is `"wheel"`,
`is_sudo` raises an uncaught `IndexError` (modelled `none`) instead of
skipping the line, while the same malformed line under an unprivileged
group name is skipped without error. -/
theorem is_sudo_short_line_behaviour :
    is_sudo (lit "bob") short_wheel_state = none ∧
    is_sudo (lit "bob") short_foo_state = some false := by
  exact ⟨by decide, by decide⟩

/-- C4: in full verbosity a comment longer than 18 characters is
displayed as its first 16 characters followed by `".."`, a non-empty
comment of length at most 18 is unchanged, an empty comment becomes
`"None"`, and a non-empty comment is never turned into `"None"` (unless
it already was that literal). -/
theorem trunc_gecos_spec (g : Str) :
    (18 < g.length → trunc_gecos g = g.take 16 ++ lit "..") ∧
    (g.length ≤ 18 → g ≠ [] → trunc_gecos g = g) ∧
    (g = [] → trunc_gecos g = lit "None") ∧
    (g ≠ [] → trunc_gecos g = lit "None" → g = lit "None") := by
  have hdots : (lit "..").length = 2 := rfl
  have hnone : (lit "None").length = 4 := rfl
  have c1 : 18 < g.length → trunc_gecos g = g.take 16 ++ lit ".." := by
    intro h
    have hlen : (g.take 16 ++ lit "..").length = 18 := by
      rw [List.length_append, List.length_take, hdots]
      omega
    have hne : g.take 16 ++ lit ".." ≠ [] := by
      intro he
      rw [he] at hlen
      simp at hlen
    simp only [trunc_gecos]
    rw [if_pos h, if_neg hne]
  have c2 : g.length ≤ 18 → g ≠ [] → trunc_gecos g = g := by
    intro hle hne
    have h : ¬ 18 < g.length := by omega
    simp only [trunc_gecos]
    rw [if_neg h, if_neg hne]
  refine ⟨c1, c2, ?_, ?_⟩
  · rintro rfl
    rfl
  · intro hne heq
    by_cases h : 18 < g.length
    · exfalso
      rw [c1 h] at heq
      have := congrArg List.length heq
      rw [List.length_append, List.length_take, hdots, hnone] at this
      omega
    · rw [c2 (by omega) hne] at heq
      exact heq

/-- C4 witness: the three concrete comment shapes from the spec. -/
theorem trunc_gecos_spec_witness :
    trunc_gecos (lit "1234567890123456789") = lit "1234567890123456.." ∧
    trunc_gecos (lit "123456789012345678") = lit "123456789012345678" ∧
    trunc_gecos [] = lit "None" := by
  refine ⟨?_, ?_, ?_⟩
  · have h := (trunc_gecos_spec (lit "1234567890123456789")).1 (by decide)
    rw [h]
    decide
  · exact (trunc_gecos_spec (lit "123456789012345678")).2.1 (by decide) (by decide)
  · exact (trunc_gecos_spec []).2.2.1 rfl

/-- C6 counterexample: with the default non-overlapping thresholds
(`SYS_UID_MAX = 999 < 1000 = UID_MIN`) the account with uid 60001
satisfies neither classification, so it is not the case that exactly one
of {system, regular} holds: both partitions are empty. -/
theorem gap_uid_not_exactly_one :
    gap_state.SYS_UID_MAX < gap_state.UID_MIN ∧
    gap_state.USERS = [u60001] ∧
    ¬((u60001.pw_uid ≤ gap_state.SYS_UID_MAX ∧
        ¬(gap_state.UID_MIN ≤ u60001.pw_uid ∧ u60001.pw_uid ≤ gap_state.UID_MAX)) ∨
      (¬(u60001.pw_uid ≤ gap_state.SYS_UID_MAX) ∧
        (gap_state.UID_MIN ≤ u60001.pw_uid ∧ u60001.pw_uid ≤ gap_state.UID_MAX))) ∧
    get_system_users gap_state = some [] ∧
    get_users gap_state = some [] :=
  ⟨by decide, rfl, by decide, rfl, rfl⟩

/-- C6 (amended): with non-overlapping thresholds
(`SYS_UID_MAX < UID_MIN`) no account satisfies both classifications (at
most one holds, possibly neither); and when the thresholds overlap,
every account whose id satisfies both classifications appears, via its
row, in both the system and the regular partitions. -/
theorem classification_at_most_one_and_overlap (st : UsersState) (x : Passwd) :
    (st.SYS_UID_MAX < st.UID_MIN →
      ¬(x.pw_uid ≤ st.SYS_UID_MAX ∧ st.UID_MIN ≤ x.pw_uid ∧ x.pw_uid ≤ st.UID_MAX)) ∧
    (st.UID_MIN ≤ st.SYS_UID_MAX → x ∈ st.USERS →
      x.pw_uid ≤ st.SYS_UID_MAX → st.UID_MIN ≤ x.pw_uid → x.pw_uid ≤ st.UID_MAX →
      ∀ sysT regT, get_system_users st = some sysT → get_users st = some regT →
        ∃ r, mk_standard_row st x = some r ∧ r ∈ sysT ∧ r ∈ regT) := by
  constructor
  · rintro hlt ⟨h1, h2, -⟩
    omega
  · intro hover hx h1 h2 h3 sysT regT hsys hreg
    unfold get_system_users at hsys
    rw [system_rows_eq] at hsys
    unfold get_users at hreg
    rw [users_rows_eq] at hreg
    obtain ⟨r, hr, hrmem⟩ :=
      optMap_mem hsys (List.mem_filter.mpr ⟨hx, by simpa using h1⟩)
    obtain ⟨r2, hr2, hrmem2⟩ :=
      optMap_mem hreg (List.mem_filter.mpr ⟨hx, by simp; exact ⟨h2, h3⟩⟩)
    have hrr : r2 = r := by
      rw [hr] at hr2
      exact (Option.some.inj hr2).symm
    exact ⟨r, hr, hrmem, hrr ▸ hrmem2⟩

/-- C5: over stored rows that all carry at least 7 tokens, the lookup
returns `"None found"` when no row's first token equals the name, and
otherwise the tokens at positions 3, 4, 5, 6 of the first matching row
joined by single spaces; and the storage of history lines keeps only
non-empty rows. -/
theorem get_last_login_spec (logins : List (List Str)) (user : Str)
    (h7 : ∀ l ∈ logins, 7 ≤ l.length) :
    get_last_login user logins =
      some (match logins.find? (fun r => decide (r.head? = some user)) with
        | none => lit "None found"
        | some l => fmt_login l) ∧
    ∀ lines : List Str, ∀ r ∈ store_logins lines, r ≠ [] := by
  constructor
  · induction logins with
    | nil => rfl
    | cons x rest ih =>
      have h7x := h7 x (List.mem_cons_self _ _)
      cases x with
      | nil => simp at h7x
      | cons a xt =>
        by_cases ha : a = user
        · have hfind : (((a :: xt) :: rest).find?
              (fun r => decide (r.head? = some user))) = some (a :: xt) := by
            apply List.find?_cons_of_pos
            simp [ha]
          rw [hfind]
          obtain ⟨v3, h3⟩ : ∃ v, (a :: xt).get? 3 = some v :=
            ⟨_, List.get?_eq_get (by simp at h7x ⊢; omega)⟩
          obtain ⟨v4, h4⟩ : ∃ v, (a :: xt).get? 4 = some v :=
            ⟨_, List.get?_eq_get (by simp at h7x ⊢; omega)⟩
          obtain ⟨v5, h5⟩ : ∃ v, (a :: xt).get? 5 = some v :=
            ⟨_, List.get?_eq_get (by simp at h7x ⊢; omega)⟩
          obtain ⟨v6, h6⟩ : ∃ v, (a :: xt).get? 6 = some v :=
            ⟨_, List.get?_eq_get (by simp at h7x ⊢; omega)⟩
          simp only [get_last_login, fmt_login]
          rw [h3, h4, h5, h6]
          simp [ha]
        · have hfind : (((a :: xt) :: rest).find?
              (fun r => decide (r.head? = some user))) =
              rest.find? (fun r => decide (r.head? = some user)) := by
            apply List.find?_cons_of_neg
            simp [ha]
          rw [hfind]
          have hstep : get_last_login user ((a :: xt) :: rest) =
              get_last_login user rest := by
            simp [get_last_login, ha]
          rw [hstep]
          exact ih (fun l hl => h7 l (List.mem_cons_of_mem _ hl))
  · intro lines r hr
    have := (List.mem_filter.mp hr).2
    intro he
    rw [he] at this
    simp at this

/-- C5 witness: a one-row history with a different name yields the
`"None found"` sentinel. -/
theorem get_last_login_spec_witness :
    get_last_login (lit "alice")
      [[lit "root", lit "p", lit "q", lit "Mon", lit "Jan", lit "1",
        lit "12:00"]] = some (lit "None found") := by
  have h := (get_last_login_spec
    [[lit "root", lit "p", lit "q", lit "Mon", lit "Jan", lit "1",
      lit "12:00"]] (lit "alice") (by decide)).1
  simpa using h

/-- C10: when the first stored row whose first token equals the queried
name has fewer than 7 tokens, the lookup raises an uncaught `IndexError`
(modelled `none`) instead of returning a string; and the storage filter
keeps every non-empty token row, however few tokens it has. -/
theorem get_last_login_short_match_raises (logins : List (List Str))
    (user : Str) (l : List Str)
    (hfind : logins.find? (fun r => decide (r.head? = some user)) = some l)
    (hshort : l.length < 7) :
    get_last_login user logins = none ∧
    ∀ lines : List Str,
      ∀ row ∈ lines.map (fun x => tokensWS (pyStrip x)),
        row ≠ [] → row ∈ store_logins lines := by
  constructor
  · induction logins with
    | nil => simp at hfind
    | cons x rest ih =>
      by_cases hx : x.head? = some user
      · have : ((x :: rest).find? (fun r => decide (r.head? = some user))) =
            some x := by
          apply List.find?_cons_of_pos
          simp [hx]
        rw [this] at hfind
        have hl : l = x := (Option.some.inj hfind).symm
        subst hl
        cases l with
        | nil => simp at hx
        | cons a lt =>
          have ha : a = user := by simpa using hx
          have h6 : (a :: lt).get? 6 = none :=
            List.get?_eq_none.mpr (by omega)
          cases h3 : (a :: lt).get? 3 <;> cases h4 : (a :: lt).get? 4 <;>
            cases h5 : (a :: lt).get? 5 <;>
            · simp only [get_last_login]
              rw [h3, h4, h5, h6]
              simp [ha]
      · have : ((x :: rest).find? (fun r => decide (r.head? = some user))) =
            rest.find? (fun r => decide (r.head? = some user)) := by
          apply List.find?_cons_of_neg
          simp [hx]
        rw [this] at hfind
        cases x with
        | nil => simp [get_last_login]
        | cons a xt =>
          have ha : a ≠ user := by
            intro he
            exact hx (by simp [he])
          have hstep : get_last_login user ((a :: xt) :: rest) =
              get_last_login user rest := by
            simp [get_last_login, ha]
          rw [hstep]
          exact ih hfind
  · intro lines row hrow hne
    refine List.mem_filter.mpr ⟨hrow, ?_⟩
    simp [List.length_pos]
    exact hne

/-- C10 witness: a stored three-token row for `bob` makes the lookup for
`bob` raise. -/
theorem get_last_login_short_match_raises_witness :
    get_last_login (lit "bob") [[lit "bob", lit "x", lit "y"]] = none :=
  (get_last_login_short_match_raises [[lit "bob", lit "x", lit "y"]]
    (lit "bob") [lit "bob", lit "x", lit "y"] (by decide) (by decide)).1

lemma grant_skip_step {user line : Str} {rest : List Str}
    (hstep : group_scan user (line :: rest) = group_scan user rest)
    (hnog : ¬ group_grants user line)
    (ih1 : group_scan user rest = some true ↔ ∃ l ∈ rest, group_grants user l)
    (ih2 : (¬ ∃ l ∈ rest, group_grants user l) →
      group_scan user rest = some false) :
    (group_scan user (line :: rest) = some true ↔
      ∃ l ∈ line :: rest, group_grants user l) ∧
    ((¬ ∃ l ∈ line :: rest, group_grants user l) →
      group_scan user (line :: rest) = some false) := by
  constructor
  · rw [hstep, ih1]
    constructor
    · rintro ⟨l, hl, hg⟩
      exact ⟨l, List.mem_cons_of_mem _ hl, hg⟩
    · rintro ⟨l, hl, hg⟩
      rcases List.mem_cons.mp hl with rfl | hl2
      · exact absurd hg hnog
      · exact ⟨l, hl2, hg⟩
  · intro hno
    rw [hstep]
    refine ih2 ?_
    rintro ⟨l, hl, hg⟩
    exact hno ⟨l, List.mem_cons_of_mem _ hl, hg⟩

lemma group_scan_spec (user : Str) : ∀ lines : List Str,
    (∀ line ∈ lines, privileged_group_line line →
      4 ≤ (splitOnChar ':' (pyStrip line)).length) →
    (group_scan user lines = some true ↔
      ∃ line ∈ lines, group_grants user line) ∧
    ((¬ ∃ line ∈ lines, group_grants user line) →
      group_scan user lines = some false) := by
  intro lines
  induction lines with
  | nil =>
    intro _
    exact ⟨by simp [group_scan], fun _ => rfl⟩
  | cons line rest ih =>
    intro hwf
    obtain ⟨ih1, ih2⟩ := ih (fun l hl => hwf l (List.mem_cons_of_mem _ hl))
    cases hsp : splitOnChar ':' (pyStrip line) with
    | nil =>
      have hstep : group_scan user (line :: rest) = group_scan user rest := by
        simp [group_scan, hsp]
      have hnog : ¬ group_grants user line := by
        rintro ⟨hpriv, -⟩
        unfold privileged_group_line at hpriv
        rw [hsp] at hpriv
        simp at hpriv
      exact grant_skip_step hstep hnog ih1 ih2
    | cons f0 fs =>
      by_cases hpriv : f0 = lit "wheel" ∨ f0 = lit "admin" ∨ f0 = lit "sudo"
      · have hp : privileged_group_line line := by
          unfold privileged_group_line
          rw [hsp]
          simpa using hpriv
        have hlen := hwf line (List.mem_cons_self _ _) hp
        rw [hsp] at hlen
        obtain ⟨f3, hf3⟩ : ∃ f3, (f0 :: fs).get? 3 = some f3 := by
          cases hg : (f0 :: fs).get? 3 with
          | some f3 => exact ⟨f3, rfl⟩
          | none =>
            have := List.get?_eq_none.mp hg
            omega
        cases hmem :
            (splitOnChar ',' f3).any (fun groupuser => groupuser == user) with
        | true =>
          have hstep : group_scan user (line :: rest) = some true := by
            simp only [group_scan, hsp]
            rw [if_pos hpriv]
            simp only [hf3]
            simp [hmem]
          have hg : group_grants user line := by
            refine ⟨hp, f3, ?_, ?_⟩
            · rw [hsp]
              exact hf3
            · obtain ⟨g, hgmem, hgu⟩ := List.any_eq_true.mp hmem
              have : g = user := by simpa using hgu
              exact this ▸ hgmem
          constructor
          · rw [hstep]
            exact ⟨fun _ => ⟨line, List.mem_cons_self _ _, hg⟩, fun _ => rfl⟩
          · intro hno
            exact absurd ⟨line, List.mem_cons_self _ _, hg⟩ hno
        | false =>
          have hstep : group_scan user (line :: rest) = group_scan user rest := by
            simp only [group_scan, hsp]
            rw [if_pos hpriv]
            simp only [hf3]
            rw [if_neg (by simp [hmem])]
          have hnog : ¬ group_grants user line := by
            rintro ⟨-, f3b, hf3b, humem⟩
            rw [hsp] at hf3b
            rw [hf3] at hf3b
            have he : f3b = f3 := (Option.some.inj hf3b).symm
            subst he
            have htrue :
                ((splitOnChar ',' f3b).any fun groupuser => groupuser == user) =
                  true :=
              List.any_eq_true.mpr ⟨user, humem, by simp⟩
            rw [hmem] at htrue
            exact Bool.false_ne_true htrue
          exact grant_skip_step hstep hnog ih1 ih2
      · have hstep : group_scan user (line :: rest) = group_scan user rest := by
          simp only [group_scan, hsp]
          rw [if_neg hpriv]
        have hnog : ¬ group_grants user line := by
          rintro ⟨hp, -⟩
          unfold privileged_group_line at hp
          rw [hsp] at hp
          simp at hp
          exact hpriv hp
        exact grant_skip_step hstep hnog ih1 ih2

/-- C1: under the well-formedness hypothesis that every group line whose
first colon-delimited field is a privileged group name has at least 4
colon-delimited fields, `is_sudo` returns `some true` exactly when a
grant-list line contains the name followed by a single space as a
substring, or a `wheel`/`admin`/`sudo` group line lists the name as an
exact comma-separated member of its fourth field; otherwise it returns
`some false`. -/
theorem is_sudo_spec (user : Str) (st : UsersState)
    (hwf : ∀ line ∈ st.GROUP_CONTENT, privileged_group_line line →
      4 ≤ (splitOnChar ':' (pyStrip line)).length) :
    (is_sudo user st = some true ↔
      (∃ line ∈ st.SUDO_CONTENT, pyIn (user ++ [' ']) line = true) ∨
      ∃ line ∈ st.GROUP_CONTENT, group_grants user line) ∧
    ((¬ ((∃ line ∈ st.SUDO_CONTENT, pyIn (user ++ [' ']) line = true) ∨
        ∃ line ∈ st.GROUP_CONTENT, group_grants user line)) →
      is_sudo user st = some false) := by
  obtain ⟨g1, g2⟩ := group_scan_spec user st.GROUP_CONTENT hwf
  by_cases hany :
      st.SUDO_CONTENT.any (fun line => pyIn (user ++ [' ']) line) = true
  · have hstep : is_sudo user st = some true := by
      simp [is_sudo, hany]
    have hsud : ∃ line ∈ st.SUDO_CONTENT, pyIn (user ++ [' ']) line = true :=
      List.any_eq_true.mp hany
    exact ⟨by rw [hstep]; exact ⟨fun _ => Or.inl hsud, fun _ => rfl⟩,
      fun hno => absurd (Or.inl hsud) hno⟩
  · have hstep : is_sudo user st = group_scan user st.GROUP_CONTENT := by
      simp [is_sudo, hany]
    have hnosud :
        ¬ ∃ line ∈ st.SUDO_CONTENT, pyIn (user ++ [' ']) line = true := by
      rintro ⟨l, hl, hp⟩
      exact hany (List.any_eq_true.mpr ⟨l, hl, hp⟩)
    constructor
    · rw [hstep, g1]
      constructor
      · exact fun h => Or.inr h
      · rintro (h | h)
        · exact absurd h hnosud
        · exact h
    · intro hno
      rw [hstep]
      exact g2 (fun h => hno (Or.inr h))

/-- C1 witness: with a grant line `"alice ALL=(ALL) ALL"` the account
`alice` is privileged. -/
theorem is_sudo_spec_witness : is_sudo (lit "alice") sample_state = some true := by
  refine (is_sudo_spec (lit "alice") sample_state ?_).1.mpr
    (Or.inl ⟨lit "alice ALL=(ALL) ALL", ?_, ?_⟩)
  · intro line hl hp
    have hline : line = lit "wheel:x:10:bob,carol" := by
      simpa [sample_state] using hl
    subst hline
    decide
  · decide
  · decide

lemma keyStr_inj : ∀ {k k2 : DefsKey}, k.keyStr = k2.keyStr → k = k2 := by
  intro k k2 h
  cases k <;> cases k2 <;> first
    | rfl
    | exact absurd h (by decide)

lemma read_set (k k2 : DefsKey) (st : UsersState) (v : Int) :
    DefsKey.read k (set_threshold k2 st v) =
      if k = k2 then v else DefsKey.read k st := by
  cases k <;> cases k2 <;> simp [DefsKey.read, set_threshold]

lemma key_lines_cons (K : Str) (l : Str) (rest : List Str) :
    key_lines K (l :: rest) =
      if (tokensWS (pyStrip l)).head? = some K then l :: key_lines K rest
      else key_lines K rest := by
  by_cases h : (tokensWS (pyStrip l)).head? = some K
  · simp [key_lines, List.filter_cons, h]
  · simp [key_lines, List.filter_cons, h]

lemma process_defs_skip (st0 : UsersState) (l : Str) (rest : List Str)
    (f0 : Str) (fs : List Str) (htok : tokensWS (pyStrip l) = f0 :: fs)
    (hrec : ∀ k : DefsKey, f0 ≠ k.keyStr) :
    process_defs st0 (l :: rest) = process_defs st0 rest := by
  have h1 : f0 ≠ lit "UID_MIN" := hrec DefsKey.uidMin
  have h2 : f0 ≠ lit "UID_MAX" := hrec DefsKey.uidMax
  have h3 : f0 ≠ lit "SYS_UID_MIN" := hrec DefsKey.sysUidMin
  have h4 : f0 ≠ lit "SYS_UID_MAX" := hrec DefsKey.sysUidMax
  simp only [process_defs, htok]
  rw [if_neg h1, if_neg h2, if_neg h3, if_neg h4]

lemma process_defs_assign (k0 : DefsKey) (st0 : UsersState) (l : Str)
    (rest : List Str) (fs : List Str) (t0 : Str) (v0 : Int)
    (htok : tokensWS (pyStrip l) = k0.keyStr :: fs)
    (hfst : fs.head? = some t0) (hv0 : pyInt t0 = some v0) :
    process_defs st0 (l :: rest) =
      process_defs (set_threshold k0 st0 v0) rest := by
  have d21 : lit "UID_MAX" ≠ lit "UID_MIN" := by decide
  have d31 : lit "SYS_UID_MIN" ≠ lit "UID_MIN" := by decide
  have d32 : lit "SYS_UID_MIN" ≠ lit "UID_MAX" := by decide
  have d41 : lit "SYS_UID_MAX" ≠ lit "UID_MIN" := by decide
  have d42 : lit "SYS_UID_MAX" ≠ lit "UID_MAX" := by decide
  have d43 : lit "SYS_UID_MAX" ≠ lit "SYS_UID_MIN" := by decide
  cases k0 <;>
    simp only [process_defs, htok, DefsKey.keyStr] <;>
    simp [d21, d31, d32, d41, d42, d43, hfst, hv0]

lemma key_lines_rest_le (K : Str) (l : Str) (rest : List Str) :
    (key_lines K rest).length ≤ (key_lines K (l :: rest)).length := by
  rw [key_lines_cons]
  by_cases h : (tokensWS (pyStrip l)).head? = some K
  · rw [if_pos h]
    simp
  · rw [if_neg h]

lemma process_defs_go (lines : List Str) : ∀ st0 : UsersState,
    (∀ l ∈ lines, tokensWS (pyStrip l) ≠ []) →
    (∀ l ∈ lines, ∀ k : DefsKey,
      (tokensWS (pyStrip l)).head? = some k.keyStr →
      ∃ t v, (tokensWS (pyStrip l)).get? 1 = some t ∧ pyInt t = some v) →
    (∀ k : DefsKey, (key_lines k.keyStr lines).length ≤ 1) →
    ∃ st, process_defs st0 lines = some st ∧
      ∀ k : DefsKey,
        (key_lines k.keyStr lines = [] →
          DefsKey.read k st = DefsKey.read k st0) ∧
        (∀ l t v, key_lines k.keyStr lines = [l] →
          (tokensWS (pyStrip l)).get? 1 = some t → pyInt t = some v →
          DefsKey.read k st = v) := by
  induction lines with
  | nil =>
    intro st0 _ _ _
    exact ⟨st0, rfl, fun k => ⟨fun _ => rfl, fun l t v h => by simp [key_lines] at h⟩⟩
  | cons l0 rest ih =>
    intro st0 hne hint huniq
    have hne0 := hne l0 (List.mem_cons_self _ _)
    obtain ⟨f0, fs, htok⟩ : ∃ f0 fs, tokensWS (pyStrip l0) = f0 :: fs := by
      cases h : tokensWS (pyStrip l0) with
      | nil => exact absurd h hne0
      | cons a b => exact ⟨a, b, rfl⟩
    have hne_rest : ∀ l ∈ rest, tokensWS (pyStrip l) ≠ [] :=
      fun l hl => hne l (List.mem_cons_of_mem _ hl)
    have hint_rest : ∀ l ∈ rest, ∀ k : DefsKey,
        (tokensWS (pyStrip l)).head? = some k.keyStr →
        ∃ t v, (tokensWS (pyStrip l)).get? 1 = some t ∧ pyInt t = some v :=
      fun l hl => hint l (List.mem_cons_of_mem _ hl)
    have huniq_rest : ∀ k : DefsKey, (key_lines k.keyStr rest).length ≤ 1 :=
      fun k => le_trans (key_lines_rest_le _ l0 _) (huniq k)
    by_cases hrec : ∃ k0 : DefsKey, f0 = k0.keyStr
    · obtain ⟨k0, rfl⟩ := hrec
      have hhead : (tokensWS (pyStrip l0)).head? = some k0.keyStr := by
        rw [htok]
        rfl
      obtain ⟨t0, v0, ht0, hv0⟩ := hint l0 (List.mem_cons_self _ _) k0 hhead
      have hfst : fs.head? = some t0 := by
        rw [htok] at ht0
        cases fs with
        | nil => simp at ht0
        | cons a fs2 => simpa using ht0
      have hstep := process_defs_assign k0 st0 l0 rest fs t0 v0 htok hfst hv0
      obtain ⟨st, hst, hk⟩ :=
        ih (set_threshold k0 st0 v0) hne_rest hint_rest huniq_rest
      refine ⟨st, by rw [hstep]; exact hst, fun k => ?_⟩
      by_cases hk0 : k = k0
      · subst hk0
        have hcons : key_lines k.keyStr (l0 :: rest) =
            l0 :: key_lines k.keyStr rest := by
          rw [key_lines_cons, if_pos hhead]
        have hrest_nil : key_lines k.keyStr rest = [] := by
          have hu := huniq k
          rw [hcons, List.length_cons] at hu
          exact List.length_eq_zero.mp (by omega)
        constructor
        · intro habs
          rw [hcons, hrest_nil] at habs
          exact absurd habs (List.cons_ne_nil _ _)
        · intro l t v hone ht hv
          rw [hcons, hrest_nil] at hone
          have hl : l0 = l := (List.cons.injEq _ _ _ _).mp hone |>.1
          subst hl
          rw [htok] at ht
          have htt : t = t0 := by
            cases fs with
            | nil => simp at ht
            | cons a fs2 =>
              simp at ht
              simp at hfst
              exact ht.symm.trans hfst
          subst htt
          have hvv : v = v0 := Option.some.inj ((hv.symm).trans hv0)
          subst hvv
          have := (hk k).1 hrest_nil
          rw [this, read_set, if_pos rfl]
      · have hne_head : ¬ (tokensWS (pyStrip l0)).head? = some k.keyStr := by
          rw [hhead]
          intro h
          exact hk0 (keyStr_inj (Option.some.inj h)).symm
        have hsame : key_lines k.keyStr (l0 :: rest) = key_lines k.keyStr rest := by
          rw [key_lines_cons, if_neg hne_head]
        constructor
        · intro hnil
          rw [hsame] at hnil
          rw [(hk k).1 hnil, read_set, if_neg hk0]
        · intro l t v hone ht hv
          rw [hsame] at hone
          exact (hk k).2 l t v hone ht hv
    · push_neg at hrec
      have hstep := process_defs_skip st0 l0 rest f0 fs htok hrec
      have hsame : ∀ k : DefsKey,
          key_lines k.keyStr (l0 :: rest) = key_lines k.keyStr rest := by
        intro k
        rw [key_lines_cons, if_neg ?_]
        rw [htok]
        intro h
        exact hrec k (Option.some.inj h)
      obtain ⟨st, hst, hk⟩ := ih st0 hne_rest hint_rest
        (fun k => (hsame k) ▸ huniq k)
      refine ⟨st, by rw [hstep]; exact hst, fun k => ?_⟩
      constructor
      · intro hnil
        rw [hsame k] at hnil
        exact (hk k).1 hnil
      · intro l t v hone ht hv
        rw [hsame k] at hone
        exact (hk k).2 l t v hone ht hv

/-- C7: over a definitions source whose recognized keys carry integer
values (and, each key appearing at most once, on non-blank lines), the
loader returns a state whose four threshold attributes equal the parsed
value of their key when the key is present and keep the built-in defaults
`UID_MIN = 1000`, `UID_MAX = 60000`, `SYS_UID_MIN = 0`,
`SYS_UID_MAX = 999` when absent; and a line with an unrecognized first
token never changes the outcome. -/
theorem process_defs_spec (lines : List Str)
    (hne : ∀ l ∈ lines, tokensWS (pyStrip l) ≠ [])
    (hint : ∀ l ∈ lines, ∀ k : DefsKey,
      (tokensWS (pyStrip l)).head? = some k.keyStr →
      ∃ t v, (tokensWS (pyStrip l)).get? 1 = some t ∧ pyInt t = some v)
    (huniq : ∀ k : DefsKey, (key_lines k.keyStr lines).length ≤ 1) :
    DefsKey.read DefsKey.uidMin users_defaults = 1000 ∧
    DefsKey.read DefsKey.uidMax users_defaults = 60000 ∧
    DefsKey.read DefsKey.sysUidMin users_defaults = 0 ∧
    DefsKey.read DefsKey.sysUidMax users_defaults = 999 ∧
    (∃ st, process_defs users_defaults lines = some st ∧
      ∀ k : DefsKey,
        (key_lines k.keyStr lines = [] →
          DefsKey.read k st = DefsKey.read k users_defaults) ∧
        (∀ l t v, key_lines k.keyStr lines = [l] →
          (tokensWS (pyStrip l)).get? 1 = some t → pyInt t = some v →
          DefsKey.read k st = v)) ∧
    ∀ (st0 : UsersState) (l : Str) (rest : List Str) (f0 : Str)
      (fs : List Str), tokensWS (pyStrip l) = f0 :: fs →
      (∀ k : DefsKey, f0 ≠ k.keyStr) →
      process_defs st0 (l :: rest) = process_defs st0 rest :=
  ⟨rfl, rfl, rfl, rfl, process_defs_go lines users_defaults hne hint huniq,
    process_defs_skip⟩

/-- C7 witness: a source setting `UID_MIN` to 2000 and `SYS_UID_MAX` to
499, with one unrecognized line, yields those values and keeps the
`UID_MAX` default 60000. -/
theorem process_defs_spec_witness :
    ∃ st, process_defs users_defaults defs_lines_w = some st ∧
      DefsKey.read DefsKey.uidMin st = 2000 ∧
      DefsKey.read DefsKey.uidMax st = 60000 ∧
      DefsKey.read DefsKey.sysUidMax st = 499 := by
  have hint : ∀ l ∈ defs_lines_w, ∀ k : DefsKey,
      (tokensWS (pyStrip l)).head? = some k.keyStr →
      ∃ t v, (tokensWS (pyStrip l)).get? 1 = some t ∧ pyInt t = some v := by
    intro l hl k hk
    simp only [defs_lines_w, List.mem_cons, List.not_mem_nil, or_false] at hl
    rcases hl with rfl | rfl | rfl
    · exact ⟨lit "2000", 2000, by decide, by decide⟩
    · exfalso
      revert hk
      cases k <;> decide
    · exact ⟨lit "499", 499, by decide, by decide⟩
  obtain ⟨-, -, -, -, ⟨st, hst, hk⟩, -⟩ :=
    process_defs_spec defs_lines_w (by decide) hint
      (by intro k; cases k <;> decide)
  refine ⟨st, hst, ?_, ?_, ?_⟩
  · exact (hk DefsKey.uidMin).2 (lit "UID_MIN  2000") (lit "2000") 2000
      (by decide) (by decide) (by decide)
  · exact (hk DefsKey.uidMax).1 (by decide)
  · exact (hk DefsKey.sysUidMax).2 (lit "SYS_UID_MAX 499") (lit "499") 499
      (by decide) (by decide) (by decide)

lemma if_gt_eq_max (m l : Nat) : (if l > m then l else m) = max m l := by
  rcases Nat.lt_or_ge m l with h | h
  · rw [if_pos h, Nat.max_eq_right (Nat.le_of_lt h)]
  · rw [if_neg (by omega), Nat.max_eq_left h]

lemma foldl_gt_eq_foldl_max (l : List Field) (m : Nat) :
    l.foldl (fun m2 w =>
      if (field_str w).length > m2 then (field_str w).length else m2) m =
    l.foldl (fun m2 w => max m2 (field_str w).length) m := by
  simp only [if_gt_eq_max]

lemma foldl_max_init (l : List Field) (m : Nat) :
    l.foldl (fun m2 w => max m2 (field_str w).length) m =
    max m (l.foldl (fun m2 w => max m2 (field_str w).length) 0) := by
  induction l generalizing m with
  | nil => simp
  | cons a t ih =>
    simp only [List.foldl_cons]
    rw [ih (max m (field_str a).length), ih (max 0 (field_str a).length)]
    omega

lemma header_fold (hs : List Field) :
    get_max_field_length (hs.map Sum.inl) =
      hs.foldl (fun m w => max m (field_str w).length) 0 := by
  unfold get_max_field_length
  rw [List.foldl_map]
  exact foldl_gt_eq_foldl_max hs 0

lemma table_fold_general (t : List (List Field)) : ∀ m : Nat,
    t.foldl (fun m2 r => r.foldl (fun m3 w =>
      if (field_str w).length > m3 then (field_str w).length else m3) m2) m =
    t.flatten.foldl (fun m2 w => max m2 (field_str w).length) m := by
  induction t with
  | nil =>
    intro m
    rfl
  | cons r rs ih =>
    intro m
    simp only [List.foldl_cons, List.flatten_cons, List.foldl_append]
    rw [foldl_gt_eq_foldl_max]
    exact ih _

lemma table_fold (t : List (List Field)) :
    get_max_field_length (t.map Sum.inr) =
      t.flatten.foldl (fun m w => max m (field_str w).length) 0 := by
  unfold get_max_field_length
  rw [List.foldl_map]
  exact table_fold_general t 0

lemma le_foldl_max {f : Field} {l : List Field} (hf : f ∈ l) :
    (field_str f).length ≤ l.foldl (fun m w => max m (field_str w).length) 0 := by
  induction l with
  | nil => cases hf
  | cons a t ih =>
    rw [List.foldl_cons, foldl_max_init]
    rcases List.mem_cons.mp hf with rfl | hf2
    · rw [Nat.zero_max]
      exact Nat.le_max_left _ _
    · exact le_trans (ih hf2) (Nat.le_max_right _ _)

lemma column_width_eq (headers : List Field) (table : List (List Field)) :
    column_width headers table =
      (headers ++ table.flatten).foldl
        (fun m w => max m (field_str w).length) 0 + 2 := by
  have happ : (headers ++ table.flatten).foldl
      (fun m w => max m (field_str w).length) 0 =
      max (headers.foldl (fun m w => max m (field_str w).length) 0)
        (table.flatten.foldl (fun m w => max m (field_str w).length) 0) := by
    rw [List.foldl_append, foldl_max_init]
  unfold column_width
  rw [header_fold, table_fold, if_gt_eq_max, happ]
  omega

/-- C8: the renderer pads every field of the header line and of every
body line to one single shared column width, equal to the length of the
longest stringified field over the union of header and body fields plus
2, left-justified with spaces; each padded cell has exactly that width
and starts with the untruncated field text. -/
theorem print_table_uniform_width (headers : List Field)
    (table : List (List Field)) :
    column_width headers table =
      (headers ++ table.flatten).foldl
        (fun m w => max m (field_str w).length) 0 + 2 ∧
    (∀ f ∈ headers ++ table.flatten,
      (ljust (field_str f) (column_width headers table)).length =
        column_width headers table ∧
      field_str f <+: ljust (field_str f) (column_width headers table)) ∧
    print_table headers table =
      (headers :: table).map (fun row =>
        (row.map (fun word =>
          ljust (field_str word) (column_width headers table))).flatten) := by
  refine ⟨column_width_eq headers table, ?_, ?_⟩
  · intro f hf
    have hle : (field_str f).length ≤ column_width headers table := by
      rw [column_width_eq]
      have h2 : (field_str f).length ≤
          (headers ++ table.flatten).foldl
            (fun m w => max m (field_str w).length) 0 :=
        le_foldl_max hf
      omega
    constructor
    · unfold ljust
      rw [List.length_append, List.length_replicate]
      omega
    · exact List.prefix_append _ _
  · rfl

/-- C8 witness: for header `["ID", "User"]` and the single row
`[7, "root"]`, the shared width is `max(2, 4, 1, 4) + 2 = 6` and each
padded cell has length 6. -/
theorem print_table_uniform_width_witness :
    column_width [Field.s (lit "ID"), Field.s (lit "User")]
      [[Field.i 7, Field.s (lit "root")]] = 6 ∧
    (ljust (field_str (Field.s (lit "User")))
      (column_width [Field.s (lit "ID"), Field.s (lit "User")]
        [[Field.i 7, Field.s (lit "root")]])).length = 6 := by
  have h := print_table_uniform_width
    [Field.s (lit "ID"), Field.s (lit "User")]
    [[Field.i 7, Field.s (lit "root")]]
  have h1 : column_width [Field.s (lit "ID"), Field.s (lit "User")]
      [[Field.i 7, Field.s (lit "root")]] = 6 := by
    rw [h.1]
    decide
  refine ⟨h1, ?_⟩
  have h2 := (h.2.1 (Field.s (lit "User")) (by decide)).1
  rw [h2, h1]

/-- C9 counterexample: in version mode with an unopenable account
database the run aborts with the fatal startup message instead of
producing the version output, so version mode does not bypass data
loading. -/
theorem version_mode_loads_first :
    args_version.show_version = true ∧
    main_run env_bad args_version =
      Except.error (lit "Unable to open /etc/passwd") ∧
    main_run env_bad args_version ≠ Except.ok Output.versionOut :=
  ⟨rfl, rfl, by
    intro h
    have h2 : (Except.error (lit "Unable to open /etc/passwd") :
        Except Str Output) = Except.ok Output.versionOut := h
    exact Except.noConfusion h2⟩

/-- C9 (amended): version mode does not bypass data loading:
`init_variables` runs before the mode check, so any fatal loading error
(unopenable source or malformed definitions value) aborts the run even
in version mode, and the version output is produced exactly when loading
succeeds. -/
theorem version_mode_after_loading (env : Env) (args : Args)
    (hv : args.show_version = true) :
    (∀ e, init_variables env = Except.error e →
      main_run env args = Except.error e) ∧
    (∀ st, init_variables env = Except.ok st →
      main_run env args = Except.ok Output.versionOut) := by
  constructor
  · intro e he
    simp [main_run, he]
  · intro st hst
    simp [main_run, hst, hv]

/-- C9 witness: with every source openable, version mode prints the
version. -/
theorem version_mode_after_loading_witness :
    main_run env_ok args_version = Except.ok Output.versionOut :=
  (version_mode_after_loading env_ok args_version rfl).2 users_defaults rfl

end GetUsers
